import Mathlib

/-!
Verification of the taskloom structured-concurrency core against its
natural-language specification.

The TypeScript sources are shallowly embedded:

* `src/task.ts` (`runTask`, `transitionToCanceled` / `transitionToCompleted` /
  `transitionToFailed`) becomes a state machine `TaskState` / `step` plus an
  event-trace semantics `cancelRun` that records, in program order, the
  side effects the source performs (lifecycle hooks, status flip, debug
  emission, user onCancel handlers, settling the awaitable).
* `src/scope.ts` (`createScope`, `getScopeDeadlineRemainingMs`) becomes
  `ControllerState` / `scopeAbort` and `getScopeDeadlineRemainingMs`.
* `src/helpers.ts` (`runWithTimeout`, `retry`, `createLimiter`) becomes
  `effectiveMsOf` / `timeoutExpiry`, `retryGo`, and the limiter state
  machine `LimiterState` / `limitCall` / `limiterOnAbort` / `runNext`.
* `src/primitives.ts` (`sync`, `race`) becomes denotational executions
  `syncRun` / `raceRun` over settlement schedules: each scope-bound task is
  described by `Option (Nat × Except α α)` — the instant its work would
  settle naturally together with the outcome, or `none` when the work never
  settles on its own.  The denotations follow the promise combinators the
  source uses (`Promise.all`, `Promise.race`) and the abort calls in the
  source, assuming the event-loop delivers settlements in time order with
  ties broken by registration order.
-/

deriving instance DecidableEq for Except

namespace Taskloom

/-- CancelReason tagged union from `src/task.ts`, with signals and parent
tasks identified by numeric ids; `user e` is a user-supplied reason passed
through unchanged. -/
inductive Reason (α : Type) where
  | timeout (ms : Nat)
  | userAbort (signal : Nat)
  | scopeClosed
  | parentCanceled (parent : Nat)
  | user (e : α)
  deriving DecidableEq, Repr

/-- TaskStatus from `src/task.ts` (the `created` member of the union is never
assigned by the implementation; `running` is the initial value). -/
inductive Status where
  | created
  | running
  | completed
  | failed
  | canceled
  deriving DecidableEq, Repr

/-- The mutable task-local state of `runTask` in `src/task.ts`: `status`,
`result`, `error`.  The `error` slot stores either a failure error or a
cancellation reason, exactly as the source assigns `error = reason` in both
`transitionToFailed` and `transitionToCanceled`. -/
structure TaskState (α : Type) where
  status : Status
  result : Option α
  error : Option (Except (Reason α) α)
  deriving DecidableEq, Repr

/-- A freshly created task before any transition: `let status = "running"`,
`result`/`error` unset. -/
def bornState (α : Type) : TaskState α :=
  { status := .running, result := none, error := none }

/-- The three terminal transition requests a task can receive, with their
payloads: `transitionToCompleted(value)`, `transitionToFailed(reason)`,
`transitionToCanceled(reason)`. -/
inductive Transition (α : Type) where
  | completed (v : α)
  | failed (e : α)
  | canceled (r : Reason α)
  deriving DecidableEq, Repr

/-- Observable side effects performed by the transition functions in
`src/task.ts`, in program order: lifecycle hook invocations, the status
flip, the debug `updateTask` emission, user `onCancel` handler runs, and
settling the awaitable (`resolveThenable` / `rejectThenable`). -/
inductive TEv where
  | hookCancel (i : Nat)
  | hookComplete (i : Nat)
  | hookFail (i : Nat)
  | statusFlip (s : Status)
  | emitDebug
  | runHandler (i : Nat)
  | settle
  deriving DecidableEq, Repr

/-- Model of `transitionToCanceled(reason)` from `src/task.ts`: guarded by
`status === "running"`; then invokes every `onTaskCancel` lifecycle hook,
flips the status, emits the debug update, stores `error = reason`, runs the
registered `onCancel` handlers in registration order (`nd` of them), and
finally rejects the thenable.  Returns the new state and the event trace. -/
def cancelRun (nh nd : Nat) (s : TaskState α) (reason : Reason α) :
    TaskState α × List TEv :=
  if s.status ≠ .running then (s, [])
  else
    ({ status := .canceled, result := s.result, error := some (.error reason) },
      (List.range nh).map TEv.hookCancel
        ++ [TEv.statusFlip .canceled, TEv.emitDebug]
        ++ (List.range nd).map TEv.runHandler
        ++ [TEv.settle])

/-- Model of `transitionToCompleted(value)` from `src/task.ts`: guarded by
`status === "running"`; invokes `onTaskComplete` hooks, flips the status,
emits the debug update, stores `result = value`, resolves the thenable. -/
def completeRun (nh : Nat) (s : TaskState α) (v : α) :
    TaskState α × List TEv :=
  if s.status ≠ .running then (s, [])
  else
    ({ status := .completed, result := some v, error := s.error },
      (List.range nh).map TEv.hookComplete
        ++ [TEv.statusFlip .completed, TEv.emitDebug, TEv.settle])

/-- Model of `transitionToFailed(reason)` from `src/task.ts`: guarded by
`status === "running"`; invokes `onTaskFail` hooks, flips the status, emits
the debug update, stores `error = reason`, rejects the thenable. -/
def failRun (nh : Nat) (s : TaskState α) (e : α) :
    TaskState α × List TEv :=
  if s.status ≠ .running then (s, [])
  else
    ({ status := .failed, result := s.result, error := some (.ok e) },
      (List.range nh).map TEv.hookFail
        ++ [TEv.statusFlip .failed, TEv.emitDebug, TEv.settle])

/-- One transition request applied to the task state (state part of the
three transition functions; `nh`/`nd` do not affect the state). -/
def step (s : TaskState α) : Transition α → TaskState α
  | .completed v => (completeRun 0 s v).1
  | .failed e => (failRun 0 s e).1
  | .canceled r => (cancelRun 0 0 s r).1

/-- A sequence of transition requests delivered to the same task. -/
def runSteps (s : TaskState α) (l : List (Transition α)) : TaskState α :=
  l.foldl step s

/-- Terminal status a transition request establishes. -/
def terminalOf : Transition α → Status
  | .completed _ => .completed
  | .failed _ => .failed
  | .canceled _ => .canceled

/-! ### Scope and AbortController (`src/scope.ts`) -/

/-- The one-shot state of an `AbortController`'s signal: whether it has
aborted and the reason fixed by the first abort. -/
structure ControllerState (α : Type) where
  aborted : Bool
  reason : Option (Reason α)
  deriving DecidableEq, Repr

/-- A controller before any abort. -/
def freshController (α : Type) : ControllerState α :=
  { aborted := false, reason := none }

/-- Model of `AbortController.abort(reason)`: idempotent, the first call fixes the
reason. -/
def controllerAbort (st : ControllerState α) (r : Reason α) : ControllerState α :=
  if st.aborted then st else { aborted := true, reason := some r }

/-- Model of `scope.abort(reason?)` as built by `createScope` in `src/scope.ts`:
`controller.abort(reason ?? { type: "user-abort", signal: controller.signal })`.
`selfSignal` is the numeric identity of the controller's own signal. -/
def scopeAbort (selfSignal : Nat) (st : ControllerState α)
    (reason : Option (Reason α)) : ControllerState α :=
  controllerAbort st (reason.getD (.userAbort selfSignal))

/-- Model of `getScopeDeadlineRemainingMs` from `src/scope.ts`:
`if (!store?.deadlineMs) return undefined; return Math.max(0, store.deadlineMs - Date.now())`.
A `deadlineMs` of `0` is falsy in the source, hence treated as unset.
Subtraction is clamped at zero (ℕ truncated subtraction matches
`Math.max(0, d - now)`). -/
def getScopeDeadlineRemainingMs (deadlineMs : Option Nat) (now : Nat) : Option Nat :=
  match deadlineMs with
  | none => none
  | some d => if d = 0 then none else some (d - now)

/-! ### runTask with an already-aborted parent signal (`src/task.ts`) -/

/-- Events observable from the synchronous body of `runTask`: lifecycle
hook calls and whether the `work` function was invoked. -/
inductive RTEv (α : Type) where
  | hookStart (i : Nat)
  | hookCancel (i : Nat) (reason : Reason α)
  | workInvoked
  | registerScope
  deriving DecidableEq, Repr

/-- The cancel reason `runTask` derives from an aborted parent signal:
`parentTask ? { type: "parent-canceled", parent: parentTask } : parentSignal.reason`. -/
def normalizedParentReason (parentTask : Option Nat) (parentReason : Reason α) :
    Reason α :=
  match parentTask with
  | some p => .parentCanceled p
  | none => parentReason

/-- The result of `runTask`'s synchronous prefix: the task state it
returns and the trace of observable events it performed. -/
structure RunTaskResult (α : Type) where
  state : TaskState α
  events : List (RTEv α)
  deriving DecidableEq, Repr

/-- The `parentSignal?.aborted` branch of `runTask` in `src/task.ts`
(lines 215–227): build the task object, compute the normalized reason,
invoke every `onTaskCancel` lifecycle hook directly, then call
`transitionToCanceled(reason)` (which, the status still being `running`,
invokes the same hooks again, flips the status and stores the reason),
then `registerScopeTask`; `work` is never invoked.  `nh` is the number of
lifecycle hook entries that define `onTaskCancel`. -/
def runTaskAbortedBranch (nh : Nat) (parentTask : Option Nat)
    (parentReason : Reason α) : RunTaskResult α :=
  let reason := normalizedParentReason parentTask parentReason
  let direct := (List.range nh).map (fun i => RTEv.hookCancel i reason)
  let viaTransition := (List.range nh).map (fun i => RTEv.hookCancel i reason)
  { state := (cancelRun nh 0 (bornState α) reason).1,
    events := direct ++ viaTransition ++ [RTEv.registerScope] }

/-- The non-aborted path of `runTask`'s synchronous prefix (lines 228–247):
install the parent abort listener if any, run `onTaskStart` hooks, invoke
`work`, register in the current scope. The state stays `running` until the
work promise settles. -/
def runTaskLiveBranch (nh : Nat) : RunTaskResult α :=
  { state := bornState α,
    events := (List.range nh).map RTEv.hookStart
      ++ [RTEv.workInvoked, RTEv.registerScope] }

/-- Model of the `runTask(work, options)` synchronous prefix, dispatching on whether
`options.signal` is supplied and already aborted. `parentSignal = none`
means no signal option; `some (aborted, reason)` mirrors the signal's
state at call time. -/
def runTaskSyncPhase (nh : Nat) (parentSignal : Option (Bool × Reason α))
    (parentTask : Option Nat) : RunTaskResult α :=
  match parentSignal with
  | some (true, parentReason) => runTaskAbortedBranch nh parentTask parentReason
  | _ => runTaskLiveBranch nh

/-! ### timeout helper (`src/helpers.ts`, `runWithTimeout`) -/

/-- The `effectiveMs` computation at the top of `runWithTimeout`:
`remainingMs && remainingMs >= 0 ? Math.min(ms, Math.max(0, remainingMs)) : ms`.
`remainingMs` is the result of `getScopeDeadlineRemainingMs()`; `undefined`
and `0` are both falsy, so the conditional falls through to `ms` in those
cases.  The `remainingMs >= 0` conjunct is always true for a defined
remaining amount (it is already clamped at zero). -/
def effectiveMsOf (ms : Nat) (remainingMs : Option Nat) : Nat :=
  match remainingMs with
  | none => ms
  | some r => if r ≠ 0 ∧ 0 ≤ r then min ms (max 0 r) else ms

/-- What `runWithTimeout` does when the timer fires before the work
settles: `scope.abort({ type: "timeout", ms: effectiveMs })` and reject
with the prepared `timeoutError` (`name = "TimeoutError"`, message
built by the template literal over `effectiveMs`). -/
structure TimeoutExpiry (α : Type) where
  errName : String
  errMessage : String
  abortReason : Reason α
  deriving DecidableEq, Repr

/-- The expiry outcome of `runWithTimeout ms` under a given remaining
scope budget, per `src/helpers.ts` lines 78–87. -/
def timeoutExpiry (α : Type) (ms : Nat) (remainingMs : Option Nat) :
    TimeoutExpiry α :=
  let eff := effectiveMsOf ms remainingMs
  { errName := "TimeoutError",
    errMessage := "Timeout after " ++ toString eff ++ " ms",
    abortReason := .timeout eff }

/-! ### retry helper (`src/helpers.ts`, `retry`) -/

/-- Backoff strategy between retry attempts. -/
inductive Backoff where
  | fixed
  | exponential
  deriving DecidableEq, Repr

/-- Observable events of a `retry` execution: the attempts (`fn(signal)`
invocations, numbered from 0) and the waits between them with their
duration in ms. -/
inductive REv where
  | attempt (i : Nat)
  | wait (ms : Nat)
  deriving DecidableEq, Repr

/-- Whether the one-shot signal is observed as aborted at abort-check
number `t` (checks are counted in execution order; the signal aborts
between check `a - 1` and check `a` when `abortAt = some a`, and once
aborted stays aborted). -/
def abortedAt (abortAt : Option Nat) (t : Nat) : Bool :=
  match abortAt with
  | some a => a ≤ t
  | none => false

/-- The delay before retry number `i + 1` in `src/helpers.ts`:
`backoff === "exponential" ? initialDelayMs * Math.pow(2, attempt) : initialDelayMs`. -/
def retryDelay (backoff : Backoff) (initialDelayMs i : Nat) : Nat :=
  match backoff with
  | .exponential => initialDelayMs * 2 ^ i
  | .fixed => initialDelayMs

/-- The loop of `retry` in `src/helpers.ts`, as a recursion on the number
of retries still allowed.  `i` is the current attempt index, `t` the
abort-check counter.  Each iteration mirrors the source: check
`signal.aborted` and throw `signal.reason` if set; run `fn`; on success
return; on failure rethrow when attempts are exhausted, otherwise `sleep`
(which itself first checks `signal.aborted` and rejects with the reason)
and continue.  `fnResult i` is what attempt `i` would settle with. -/
def retryGo (fnResult : Nat → Except ε ν) (backoff : Backoff)
    (initialDelayMs : Nat) (abortAt : Option Nat) (reason : ε) :
    Nat → Nat → Nat → List REv × Except ε ν
  | remaining, i, t =>
    if abortedAt abortAt t then ([], .error reason)
    else
      match fnResult i with
      | .ok v => ([REv.attempt i], .ok v)
      | .error e =>
        match remaining with
        | 0 => ([REv.attempt i], .error e)
        | remaining' + 1 =>
          if abortedAt abortAt (t + 1) then ([REv.attempt i], .error reason)
          else
            let d := retryDelay backoff initialDelayMs i
            let rest := retryGo fnResult backoff initialDelayMs abortAt reason
              remaining' (i + 1) (t + 2)
            (REv.attempt i :: REv.wait d :: rest.1, rest.2)

/-- Model of `retry(fn, { retries, backoff, initialDelayMs }, signal)` from
`src/helpers.ts`: the loop runs attempts `0 … retries`. -/
def retryRun (fnResult : Nat → Except ε ν) (retries : Nat) (backoff : Backoff)
    (initialDelayMs : Nat) (abortAt : Option Nat) (reason : ε) :
    List REv × Except ε ν :=
  retryGo fnResult backoff initialDelayMs abortAt reason retries 0 0

/-! ### concurrency limiter (`src/helpers.ts`, `createLimiter`) -/

/-- A JavaScript number as the limiter validation observes it: a finite
value (modelled as a rational), one of the two infinities, or NaN. -/
inductive JSNum where
  | fin (q : ℚ)
  | posInf
  | negInf
  | nan
  deriving DecidableEq, Repr

/-- The JS comparison `c < 1`: false whenever the operand is NaN,
false on +Infinity, true on -Infinity, the numeric order on finite
values. -/
def JSNum.ltOne : JSNum → Bool
  | .fin q => decide (q < 1)
  | .posInf => false
  | .negInf => true
  | .nan => false

/-- `Math.floor` per ECMA-262: the identity on NaN and on the two
infinities, the integer floor on finite values. -/
def JSNum.floor : JSNum → JSNum
  | .fin q => .fin ((⌊q⌋ : ℤ) : ℚ)
  | .posInf => .posInf
  | .negInf => .negInf
  | .nan => .nan

/-- The JS strict inequality `a !== b`: true when either operand is NaN
(NaN compares unequal to everything, itself included), structural
disequality otherwise. -/
def JSNum.strictNe : JSNum → JSNum → Bool
  | .nan, _ => true
  | _, .nan => true
  | a, b => decide (¬ a = b)

/-- Whether a JS number is an integer: finite and whole. -/
def JSNum.isInt (c : JSNum) : Prop :=
  ∃ n : ℤ, c = .fin ((n : ℤ) : ℚ)

/-- The constructor validation in `createLimiter` (part_006 line 210):
`typeof concurrency !== "number" || concurrency < 1 || Math.floor(concurrency) !== concurrency`
throws.  The argument is a number here, so the typeof disjunct is
false; the remaining two disjuncts use the JS comparison semantics
above. -/
def createLimiterThrows (concurrency : JSNum) : Bool :=
  concurrency.ltOne || JSNum.strictNe concurrency.floor concurrency

/-- The limiter's mutable state: the FIFO `queue` of pending work items
(identified by numeric ids), the `active` counter, and the ids whose work
has been started (`item.work(signal)` invoked). -/
structure LimiterState where
  queue : List Nat
  active : Nat
  started : List Nat
  deriving DecidableEq, Repr

/-- Settlements a limiter call can issue synchronously: rejecting an item
with the signal's reason, or nothing yet. -/
inductive LimiterReject (α : Type) where
  | rejected (item : Nat) (reason : Reason α)
  deriving DecidableEq, Repr

/-- Model of `runNext()` from `createLimiter`: returns unchanged when at capacity or
the queue is empty; when the signal is aborted and `cancelQueuedOnAbort`
is set it drains the queue rejecting every entry with the reason;
otherwise it shifts one item, bumps `active` and starts its work. -/
def runNext (concurrency : Nat) (cancelQueuedOnAbort aborted : Bool)
    (reason : Reason α) (st : LimiterState) :
    LimiterState × List (LimiterReject α) :=
  if st.active ≥ concurrency ∨ st.queue = [] then (st, [])
  else if aborted ∧ cancelQueuedOnAbort then
    ({ st with queue := [] }, st.queue.map (fun i => .rejected i reason))
  else
    match st.queue with
    | [] => (st, [])
    | item :: rest =>
      ({ queue := rest, active := st.active + 1,
         started := st.started ++ [item] }, [])

/-- The returned `limit(work)` closure from `createLimiter`: when
`signal.aborted` it rejects immediately with `signal.reason` (the work is
neither queued nor started); otherwise it enqueues the item and calls
`runNext()`. -/
def limitCall (concurrency : Nat) (cancelQueuedOnAbort aborted : Bool)
    (reason : Reason α) (st : LimiterState) (item : Nat) :
    LimiterState × List (LimiterReject α) :=
  if aborted then (st, [.rejected item reason])
  else runNext concurrency cancelQueuedOnAbort aborted reason
    { st with queue := st.queue ++ [item] }

/-- The abort listener installed by `createLimiter` when
`cancelQueuedOnAbort` is set: drain the queue, rejecting every entry with
`signal.reason`. -/
def limiterOnAbort (cancelQueuedOnAbort : Bool) (reason : Reason α)
    (st : LimiterState) : LimiterState × List (LimiterReject α) :=
  if cancelQueuedOnAbort then
    ({ st with queue := [] }, st.queue.map (fun i => .rejected i reason))
  else (st, [])

/-- The event trace `transitionToCanceled` performs. -/
def cancelTrace (nh nd : Nat) (s : TaskState α) (reason : Reason α) :
    List TEv :=
  (cancelRun nh nd s reason).2

/-- The attempt indices recorded in a retry trace, in order. -/
def attemptsOf (evs : List REv) : List Nat :=
  evs.filterMap
    (fun e =>
      match e with
      | .attempt i => some i
      | _ => none)

/-- The wait durations recorded in a retry trace, in order. -/
def waitsOf (evs : List REv) : List Nat :=
  evs.filterMap
    (fun e =>
      match e with
      | .wait d => some d
      | _ => none)

/-! ### sync and race (`src/primitives.ts`)

A scope-bound task is described by its natural settlement schedule
`Option (Nat × Except α α)`: `some (t, out)` when its work promise would
settle at instant `t` with outcome `out` (absent any cancellation), `none`
when the work never settles on its own.  Settlement instants are delivered
by the event loop in increasing order; simultaneous settlements are
delivered in task registration order, and a continuation reacting to a
settlement (such as the rejection handler of `Promise.all` /
`Promise.race` and the scope abort it triggers) runs after every
settlement at that instant. -/

/-- Natural settlement schedule of one scope-bound task. -/
abbrev Sched (α : Type) := Option (Nat × Except α α)

/-- Final observable state of a task once the combinator's execution has
quiesced. -/
inductive FinalStatus (α : Type) where
  | completed (v : α)
  | failed (e : α)
  | canceled (r : Reason α)
  | running
  deriving DecidableEq, Repr

/-- The status a task reaches from its own work settling. -/
def naturalStatus (out : Except α α) : FinalStatus α :=
  match out with
  | .ok v => .completed v
  | .error e => .failed e

/-- Final status of a task with schedule `s` when the scope is aborted at
instant `T` with reason `r` (`closed = some (T, r)`), or never aborted
(`closed = none`).  A task whose work settles no later than the abort has
already performed its terminal transition; otherwise the abort listener
cancels it (`transitionToCanceled(signal.reason)`), and later settlements
of its work are no-ops. -/
def finalStatusAt (closed : Option (Nat × Reason α)) (s : Sched α) :
    FinalStatus α :=
  match s, closed with
  | some (t, out), some (T, r) =>
    if t ≤ T then naturalStatus out else .canceled r
  | some (_, out), none => naturalStatus out
  | none, some (_, r) => .canceled r
  | none, none => .running

/-- One step of scanning the task list for the earliest rejection
(`Promise.all` settles with the first rejection to occur; ties are broken
by registration order, so a strictly earlier instant is needed to replace
the accumulator). -/
def rejStep (acc : Option (Nat × α)) (s : Sched α) : Option (Nat × α) :=
  match s with
  | some (t, .error e) =>
    match acc with
    | none => some (t, e)
    | some (ta, ea) => if t < ta then some (t, e) else some (ta, ea)
  | _ => acc

/-- The settlement of `Promise.all(tasks)` restricted to rejections: the
earliest natural rejection among the tasks (ties broken by registration
order), as `(instant, error)`. -/
def firstRejection (tasks : List (Sched α)) : Option (Nat × α) :=
  tasks.foldl rejStep none

/-- Whether every task's work settles on its own. -/
def allSettled (tasks : List (Sched α)) : Bool :=
  tasks.all (·.isSome)

/-- One step of accumulating the latest settlement instant. -/
def maxStep (m : Nat) (s : Sched α) : Nat :=
  match s with
  | some (t, _) => max m t
  | none => m

/-- The instant by which every naturally-settling task has settled. -/
def maxSettleTime (tasks : List (Sched α)) : Nat :=
  tasks.foldl maxStep 0

/-- One step of scanning the task list for the earliest settlement
(`Promise.race`; ties broken by registration order). -/
def raceStep (acc : Option (Nat × Except α α)) (s : Sched α) :
    Option (Nat × Except α α) :=
  match s with
  | some (t, out) =>
    match acc with
    | none => some (t, out)
    | some (ta, oa) => if t < ta then some (t, out) else some (ta, oa)
  | none => acc

/-- The settlement of `Promise.race(tasks)`: the earliest natural
settlement (ties broken by registration order). -/
def promiseRace (tasks : List (Sched α)) : Option (Nat × Except α α) :=
  tasks.foldl raceStep none

/-- Joint outcome of a combinator execution: the combinator's own
settlement `(instant, outcome)` (`none` when it never settles) and the
final status of each scope-bound task. -/
structure ComboOutcome (α : Type) where
  settled : Option (Nat × Except α α)
  statuses : List (FinalStatus α)
  deriving DecidableEq, Repr

/-- Execution of `sync(cb)` from `src/primitives.ts` over the settlement
schedules of the scope-bound tasks (`tasks`) and of the callback promise
(`cb`).  The body awaits `Promise.all(tasks)` first, with the callback
rejection swallowed until then (`resultPromise.catch(() => {})`):

* if some task rejects, `Promise.all` rejects at the earliest task
  rejection; `runInScope`'s `finally` then aborts the scope with
  `{ type: "scope-closed" }` (cancelling the still-pending tasks) and
  `sync` rejects with that task error;
* if every task completes, the body then awaits `resultPromise`;
  when the callback settles, the scope is closed the same way (no task is
  still pending) and `sync` settles with the callback's outcome;
* if some task never settles and none rejects (or the callback never
  settles), `Promise.all` (resp. the body) never settles, the `finally`
  never runs, and `sync` hangs with the scope never closed. -/
def syncRun (tasks : List (Sched α)) (cb : Sched α) : ComboOutcome α :=
  match firstRejection tasks with
  | some (t, e) =>
    { settled := some (t, .error e),
      statuses := tasks.map (finalStatusAt (some (t, .scopeClosed))) }
  | none =>
    if allSettled tasks then
      match cb with
      | some (tc, out) =>
        let T := max (maxSettleTime tasks) tc
        { settled := some (T, out),
          statuses := tasks.map (finalStatusAt (some (T, .scopeClosed))) }
      | none =>
        { settled := none, statuses := tasks.map (finalStatusAt none) }
    else
      { settled := none, statuses := tasks.map (finalStatusAt none) }

/-- Execution of `race(cb)` from `src/primitives.ts` (lines 240–259) over
the schedules of the scope-bound tasks, after the callback has resolved
and at least one task was started.  `Promise.race(tasks)` settles with the
earliest task settlement; on fulfilment the code runs
`controller.abort({ type: "scope-closed" })`, on rejection it runs
`controller.abort(reason)` with the rejection reason itself; either abort
cancels every still-pending task with that abort reason, and `race`
settles with the winning settlement.  `raceAbortReason` is the abort
reason the code passes to the controller for each kind of winning
settlement. -/
def raceAbortReason (out : Except α α) : Reason α :=
  match out with
  | .ok _ => .scopeClosed
  | .error e => .user e

/-- Execution of `race(cb)`; see `raceAbortReason` above for the code
path being modelled. -/
def raceRun (tasks : List (Sched α)) : ComboOutcome α :=
  match promiseRace tasks with
  | none =>
    { settled := none, statuses := tasks.map (finalStatusAt none) }
  | some (t, out) =>
    { settled := some (t, out),
      statuses := tasks.map (finalStatusAt (some (t, raceAbortReason out))) }

/-! ### Helper lemmas -/

/-- A transition function does nothing once the task is no longer running. -/
theorem step_frozen (s : TaskState α) (t : Transition α)
    (h : s.status ≠ .running) : step s t = s := by
  cases t <;> simp [step, completeRun, failRun, cancelRun, h]

/-- A whole sequence of transition requests does nothing once the task is
no longer running. -/
theorem runSteps_frozen (l : List (Transition α)) (s : TaskState α)
    (h : s.status ≠ .running) : runSteps s l = s := by
  induction l generalizing s with
  | nil => rfl
  | cons t l ih =>
    have hstep : step s t = s := step_frozen s t h
    simp only [runSteps, List.foldl_cons, hstep]
    exact ih s h

/-- The first transition out of the born state establishes its terminal
status. -/
theorem step_born_status (α : Type) (t : Transition α) :
    (step (bornState α) t).status = terminalOf t := by
  cases t <;> rfl

/-- Terminal statuses are never `running`. -/
theorem terminalOf_ne_running (t : Transition α) : terminalOf t ≠ .running := by
  cases t <;> simp [terminalOf]

/-! ### Claim C3 -/

/-- Claim C3: for every task, exactly one terminal transition occurs.
Every transition function (`transitionToCompleted`, `transitionToFailed`,
`transitionToCanceled`) is a no-op when the status is no longer `running`;
the first transition request out of the born state moves the status to the
corresponding terminal status (one of `completed`, `failed`, `canceled`,
never `running`); any later requests leave the state unchanged; and
`result` / `error` are set exactly by that first terminal transition. -/
theorem task_exactly_one_terminal_transition (α : Type) (t : Transition α) :
    (∀ (s : TaskState α) (u : Transition α), s.status ≠ .running → step s u = s) ∧
    (∀ l : List (Transition α),
      runSteps (step (bornState α) t) l = step (bornState α) t) ∧
    (step (bornState α) t).status = terminalOf t ∧
    terminalOf t ≠ .running ∧
    (step (bornState α) t).result =
      (match t with
       | .completed v => some v
       | _ => none) ∧
    (step (bornState α) t).error =
      (match t with
       | .completed _ => none
       | .failed e => some (.ok e)
       | .canceled r => some (.error r)) := by
  refine ⟨fun s u h => step_frozen s u h, fun l => ?_, step_born_status α t,
    terminalOf_ne_running t, ?_, ?_⟩
  · refine runSteps_frozen l _ ?_
    rw [step_born_status α t]
    exact terminalOf_ne_running t
  · cases t <;> rfl
  · cases t <;> rfl

/-- Concrete instance of claim C3: a completed task ignores a later cancel
request. -/
theorem task_exactly_one_terminal_transition_witness :
    runSteps (step (bornState Nat) (.completed 7)) [.canceled .scopeClosed]
      = step (bornState Nat) (.completed 7) ∧
    (step (bornState Nat) (.completed 7)).status = .completed :=
  ⟨(task_exactly_one_terminal_transition Nat (.completed 7)).2.1
      [.canceled .scopeClosed],
    (task_exactly_one_terminal_transition Nat (.completed 7)).2.2.1⟩

/-! ### Claim C9 -/

/-- Claim C9: `scope.abort()` with the reason omitted, on a scope created
by `createScope` (used by `runInScope`) whose controller has not yet
aborted, aborts the scope's signal with the default reason
`{ type: "user-abort", signal }` where `signal` is the scope's own signal,
so handlers observe a user-abort reason rather than an undefined one. -/
theorem scope_abort_default_user_abort (α : Type) (sid : Nat)
    (st : ControllerState α) (h : st.aborted = false) :
    (scopeAbort sid st none).aborted = true ∧
    (scopeAbort sid st none).reason = some (.userAbort sid) := by
  simp [scopeAbort, controllerAbort, h]

/-- Concrete instance of claim C9 on a fresh controller. -/
theorem scope_abort_default_user_abort_witness :
    (scopeAbort 5 (freshController Nat) none).aborted = true ∧
    (scopeAbort 5 (freshController Nat) none).reason = some (.userAbort 5) :=
  scope_abort_default_user_abort Nat 5 (freshController Nat) rfl

/-! ### Claim C8 -/

/-- Claim C8: when `runTask` is called with an already-aborted
`options.signal`, the returned task is born `canceled`, its stored cancel
reason is the parent signal's reason — normalized to
`{ type: "parent-canceled", parent }` when `options.parentTask` is set —
and the `work` function is never invoked. -/
theorem runTask_aborted_signal_born_canceled (α : Type) (nh : Nat)
    (pt : Option Nat) (pr : Reason α) :
    (runTaskSyncPhase nh (some (true, pr)) pt).state.status = .canceled ∧
    (runTaskSyncPhase nh (some (true, pr)) pt).state.error
      = some (.error (normalizedParentReason pt pr)) ∧
    (∀ p, normalizedParentReason (some p) pr = Reason.parentCanceled p) ∧
    normalizedParentReason (none : Option Nat) pr = pr ∧
    RTEv.workInvoked ∉ (runTaskSyncPhase nh (some (true, pr)) pt).events := by
  refine ⟨rfl, ?_, fun p => rfl, rfl, ?_⟩
  · simp [runTaskSyncPhase, runTaskAbortedBranch, cancelRun, bornState]
  · simp [runTaskSyncPhase, runTaskAbortedBranch]

/-- Concrete instance of claim C8: an aborted parent signal with a parent
task set yields a task born canceled with the parent-canceled reason. -/
theorem runTask_aborted_signal_born_canceled_witness :
    (runTaskSyncPhase 1 (some (true, Reason.user 3)) (some 2)
      : RunTaskResult Nat).state.status = .canceled ∧
    (runTaskSyncPhase 1 (some (true, Reason.user 3)) (some 2)
      : RunTaskResult Nat).state.error
      = some (.error (.parentCanceled 2)) :=
  ⟨(runTask_aborted_signal_born_canceled Nat 1 (some 2) (.user 3)).1,
    (runTask_aborted_signal_born_canceled Nat 1 (some 2) (.user 3)).2.1⟩

/-! ### Claim C10 -/

/-- Claim C10: when `runTask` is called with an already-aborted
`options.signal` and `nh` lifecycle-hook entries defining `onTaskCancel`,
each such hook is invoked exactly twice with the same reason — once
directly in the born-canceled branch and once again inside
`transitionToCanceled` — even though the task takes a single terminal
transition. -/
theorem runTask_aborted_signal_hook_invoked_twice (α : Type) [DecidableEq α]
    (nh : Nat) (pt : Option Nat) (pr : Reason α) (i : Nat) (h : i < nh) :
    ((runTaskSyncPhase nh (some (true, pr)) pt).events.count
      (RTEv.hookCancel i (normalizedParentReason pt pr))) = 2 ∧
    (runTaskSyncPhase nh (some (true, pr)) pt).state.status = .canceled := by
  constructor
  · simp only [runTaskSyncPhase, runTaskAbortedBranch, List.count_append]
    have hcount :
        ((List.range nh).map
          (fun j => RTEv.hookCancel j (normalizedParentReason pt pr))).count
          (RTEv.hookCancel i (normalizedParentReason pt pr)) = 1 := by
      have hnodup :
          ((List.range nh).map
            (fun j => RTEv.hookCancel j (normalizedParentReason pt pr))).Nodup := by
        refine List.Nodup.map ?_ (List.nodup_range nh)
        intro a b hab
        simpa using hab
      have hmem :
          RTEv.hookCancel i (normalizedParentReason pt pr) ∈
            (List.range nh).map
              (fun j => RTEv.hookCancel j (normalizedParentReason pt pr)) := by
        exact List.mem_map.mpr ⟨i, List.mem_range.mpr h, rfl⟩
      exact List.count_eq_one_of_mem hnodup hmem
    rw [hcount]
    simp
  · rfl

/-- Concrete instance of claim C10 with one hook entry. -/
theorem runTask_aborted_signal_hook_invoked_twice_witness :
    ((runTaskSyncPhase 1 (some (true, Reason.scopeClosed)) none
        : RunTaskResult Nat).events.count (RTEv.hookCancel 0 .scopeClosed)) = 2 :=
  (runTask_aborted_signal_hook_invoked_twice Nat 1 none .scopeClosed 0
    (by decide)).1

/-! ### Claim C5 -/

/-- Claim C5 (code bug): the claim says the effective limit is
`min(ms, remaining deadline)` whenever a deadline is set, including when
the remaining deadline is 0.  The source guards the cap with the truthy
check `remainingMs && remainingMs >= 0`, so a remaining deadline of
exactly 0 falls through to the requested `ms`: with `ms = 5` and a
remaining budget of 0, the code computes an effective limit of 5 where
the claim (and the function's own doc comment) require
`min 5 0 = 0`.  On expiry the error name, message and abort reason are
built from that uncapped value. -/
theorem timeout_effectiveMs_zero_remaining_bug :
    effectiveMsOf 5 (some 0) = 5 ∧
    min 5 0 = 0 ∧
    effectiveMsOf 5 (some 0) ≠ min 5 0 ∧
    (∀ r : Nat, r ≠ 0 → effectiveMsOf 5 (some r) = min 5 r) ∧
    (timeoutExpiry Nat 5 (some 0)).abortReason = .timeout 5 ∧
    (timeoutExpiry Nat 5 (some 0)).errName = "TimeoutError" ∧
    (timeoutExpiry Nat 5 (some 0)).errMessage = "Timeout after 5 ms" := by
  refine ⟨rfl, rfl, by decide, ?_, rfl, rfl, rfl⟩
  intro r hr
  simp [effectiveMsOf, hr]

/-- Concrete instance of the evaluation in claim C5: a remaining budget
of 3 ms is capped, the zero remaining budget is not. -/
theorem timeout_effectiveMs_zero_remaining_bug_witness :
    effectiveMsOf 5 (some 0) = 5 ∧ effectiveMsOf 5 (some 3) = min 5 3 :=
  ⟨timeout_effectiveMs_zero_remaining_bug.1,
    timeout_effectiveMs_zero_remaining_bug.2.2.2.1 3 (by decide)⟩

/-! ### Claim C7 -/

/-- A finite rational is hit by its own floor exactly when it is a whole
number. -/
theorem floorCast_eq_iff_int (q : ℚ) :
    ((⌊q⌋ : ℤ) : ℚ) = q ↔ ∃ n : ℤ, (n : ℚ) = q := by
  constructor
  · intro h
    exact ⟨⌊q⌋, h⟩
  · rintro ⟨n, hn⟩
    rw [← hn, Int.floor_intCast]

/-- Claim C7, corrected: `createLimiter` throws synchronously exactly
when the concurrency is NaN, is -Infinity, or is a finite number that is
below 1 or not whole — but +Infinity, although not an integer, is
accepted, because `Infinity < 1` is false and `Math.floor(Infinity)`
is `Infinity` again.  Every enqueue made while the bound signal is
already aborted rejects immediately with the signal's reason, leaving
the limiter state (queue, active count, started work) untouched so the
work never runs; and when the signal aborts with `cancelQueuedOnAbort`
enabled, the abort listener empties the queue and rejects every queued
entry with the signal's reason. -/
theorem limiter_validation_and_abort (α : Type) :
    (∀ c : JSNum, createLimiterThrows c = true ↔
      (c = .nan ∨ c = .negInf ∨
        ∃ q : ℚ, c = .fin q ∧ (q < 1 ∨ ¬∃ n : ℤ, (n : ℚ) = q))) ∧
    createLimiterThrows .posInf = false ∧
    (∀ (conc : Nat) (cq : Bool) (reason : Reason α) (st : LimiterState)
        (item : Nat),
      limitCall conc cq true reason st item
        = (st, [.rejected item reason])) ∧
    (∀ (reason : Reason α) (st : LimiterState),
      (limiterOnAbort true reason st).1.queue = [] ∧
      (limiterOnAbort true reason st).1.started = st.started ∧
      (limiterOnAbort true reason st).2
        = st.queue.map (fun i => .rejected i reason)) := by
  refine ⟨fun c => ?_, rfl, fun conc cq reason st item => rfl,
    fun reason st => ⟨rfl, rfl, rfl⟩⟩
  cases c with
  | fin q =>
    have hfl := floorCast_eq_iff_int q
    simp only [createLimiterThrows, JSNum.ltOne, JSNum.floor, JSNum.strictNe,
      Bool.or_eq_true, decide_eq_true_eq, JSNum.fin.injEq]
    constructor
    · rintro (h | h)
      · exact Or.inr (Or.inr ⟨q, rfl, Or.inl h⟩)
      · exact Or.inr (Or.inr ⟨q, rfl, Or.inr (fun hex => h (hfl.mpr hex))⟩)
    · rintro (h | h | ⟨q2, hq2, h⟩)
      · exact absurd h (by simp)
      · exact absurd h (by simp)
      · have hqq : q = q2 := hq2
        subst hqq
        rcases h with h | h
        · exact Or.inl h
        · exact Or.inr (fun heq => h (hfl.mp heq))
  | posInf => simp [createLimiterThrows, JSNum.ltOne, JSNum.floor, JSNum.strictNe]
  | negInf => simp [createLimiterThrows, JSNum.ltOne, JSNum.floor, JSNum.strictNe]
  | nan => simp [createLimiterThrows, JSNum.ltOne, JSNum.floor, JSNum.strictNe]

/-- Counterexample to claim C7 as stated: +Infinity is a number that is
not an integer, yet the constructor check accepts it — `Infinity < 1`
is false and `Math.floor(Infinity) !== Infinity` is false (ECMA-262:
the floor of +Infinity is +Infinity), so no disjunct fires and
`createLimiter` does not throw where the claim requires a synchronous
throw. -/
theorem limiter_infinity_accepted_counterexample :
    createLimiterThrows JSNum.posInf = false ∧
    ¬ JSNum.isInt JSNum.posInf :=
  ⟨rfl, by
    rintro ⟨n, hn⟩
    exact JSNum.noConfusion hn⟩

/-- Concrete instance of the corrected claim C7: a half-integer
concurrency is rejected at construction, and an enqueue against an
aborted signal bounces with the reason while the state is untouched. -/
theorem limiter_validation_and_abort_witness :
    createLimiterThrows (JSNum.fin (3 / 2)) = true ∧
    limitCall 2 true true (Reason.scopeClosed : Reason Nat)
        { queue := [], active := 0, started := [] } 7
      = ({ queue := [], active := 0, started := [] },
          [.rejected 7 .scopeClosed]) :=
  ⟨((limiter_validation_and_abort Nat).1 (JSNum.fin (3 / 2))).mpr
      (Or.inr (Or.inr ⟨3 / 2, rfl, Or.inr (by
        rintro ⟨n, hn⟩
        have h2 : (2 : ℚ) * (n : ℚ) = 3 := by
          rw [hn]
          norm_num
        have h3 : (2 * n : ℤ) = 3 := by
          exact_mod_cast h2
        omega)⟩)),
    (limiter_validation_and_abort Nat).2.2.1 2 true .scopeClosed
      { queue := [], active := 0, started := [] } 7⟩

/-- The cancel trace of a running task, as an explicit concatenation. -/
theorem cancelTrace_eq (nh nd : Nat) (s : TaskState α) (r : Reason α)
    (hs : s.status = .running) :
    cancelTrace nh nd s r
      = (List.range nh).map TEv.hookCancel
        ++ ([TEv.statusFlip .canceled, TEv.emitDebug]
          ++ ((List.range nd).map TEv.runHandler ++ [TEv.settle])) := by
  simp [cancelTrace, cancelRun, hs]

/-- Every position of the cancel trace of a running task holds the event
dictated by the program order of `transitionToCanceled`. -/
theorem cancelTrace_get (nh nd : Nat) (s : TaskState α) (r : Reason α)
    (hs : s.status = .running) (p : Nat) (e : TEv)
    (h : (cancelTrace nh nd s r)[p]? = some e) :
    (p < nh ∧ e = .hookCancel p) ∨
    (p = nh ∧ e = .statusFlip .canceled) ∨
    (p = nh + 1 ∧ e = .emitDebug) ∨
    (nh + 2 ≤ p ∧ p < nh + 2 + nd ∧ e = .runHandler (p - (nh + 2))) ∨
    (p = nh + 2 + nd ∧ e = .settle) := by
  rw [cancelTrace_eq nh nd s r hs] at h
  rcases Nat.lt_or_ge p nh with hp | hp
  · left
    refine ⟨hp, ?_⟩
    rw [List.getElem?_append_left (by simpa using hp)] at h
    rw [List.getElem?_map, List.getElem?_range hp] at h
    simpa using h.symm
  · rw [List.getElem?_append_right (by simpa using hp)] at h
    simp only [List.length_map, List.length_range] at h
    rcases Nat.lt_or_ge (p - nh) 2 with hq | hq
    · interval_cases hq : p - nh
      · right; left
        refine ⟨by omega, ?_⟩
        simp only [List.cons_append, List.getElem?_cons_zero] at h
        exact (Option.some_injective _ h).symm
      · right; right; left
        refine ⟨by omega, ?_⟩
        simp only [List.cons_append, List.getElem?_cons_succ,
          List.getElem?_cons_zero] at h
        exact (Option.some_injective _ h).symm
    · have hsplit : ([TEv.statusFlip .canceled, TEv.emitDebug]
          ++ ((List.range nd).map TEv.runHandler ++ [TEv.settle]))[p - nh]?
          = ((List.range nd).map TEv.runHandler ++ [TEv.settle])[p - nh - 2]? := by
        exact List.getElem?_append_right (by simpa using hq)
      rw [hsplit] at h
      rcases Nat.lt_or_ge (p - nh - 2) nd with hr2 | hr2
      · right; right; right; left
        refine ⟨by omega, by omega, ?_⟩
        rw [List.getElem?_append_left (by simpa using hr2)] at h
        rw [List.getElem?_map, List.getElem?_range hr2] at h
        have he : e = TEv.runHandler (p - nh - 2) := by simpa using h.symm
        have harith : p - nh - 2 = p - (nh + 2) := by omega
        rw [he, harith]
      · right; right; right; right
        have hlen : ((List.range nd).map TEv.runHandler).length ≤ p - nh - 2 := by
          simpa using hr2
        rw [List.getElem?_append_right hlen] at h
        simp only [List.length_map, List.length_range] at h
        rcases Nat.lt_or_ge (p - nh - 2 - nd) 1 with hs1 | hs1
        · have hz : p - nh - 2 - nd = 0 := by omega
          rw [hz] at h
          simp only [List.getElem?_cons_zero] at h
          refine ⟨by omega, (Option.some_injective _ h).symm⟩
        · rw [List.getElem?_eq_none (by simpa using hs1)] at h
          exact absurd h (by simp)

/-! ### Claim C4 -/

/-- Claim C4: when a running task is canceled, the `onTaskCancel`
lifecycle hooks run before the status flips to `canceled`; the status flip
happens before any user `onCancel` handler runs; handlers run in
registration order; and every handler runs before the awaitable rejection
is performed (the thenable settles last, so the rejection can only be
observed afterwards).  All hook and handler events do occur in the
trace. -/
theorem cancel_order_hooks_flip_handlers_reject (α : Type) (nh nd : Nat)
    (s : TaskState α) (r : Reason α) (hs : s.status = .running) :
    (∀ (p i : Nat), (cancelTrace nh nd s r)[p]? = some (TEv.hookCancel i) →
      ∀ (q : Nat), (cancelTrace nh nd s r)[q]? = some (TEv.statusFlip .canceled) → p < q) ∧
    (∀ (p : Nat), (cancelTrace nh nd s r)[p]? = some (TEv.statusFlip .canceled) →
      ∀ (q j : Nat), (cancelTrace nh nd s r)[q]? = some (TEv.runHandler j) → p < q) ∧
    (∀ (q j : Nat), (cancelTrace nh nd s r)[q]? = some (TEv.runHandler j) →
      ∀ (m : Nat), (cancelTrace nh nd s r)[m]? = some TEv.settle → q < m) ∧
    (∀ (p q i j : Nat), (cancelTrace nh nd s r)[p]? = some (TEv.runHandler i) →
      (cancelTrace nh nd s r)[q]? = some (TEv.runHandler j) → i < j → p < q) ∧
    (∀ i, i < nh → TEv.hookCancel i ∈ cancelTrace nh nd s r) ∧
    TEv.statusFlip .canceled ∈ cancelTrace nh nd s r ∧
    (∀ j, j < nd → TEv.runHandler j ∈ cancelTrace nh nd s r) ∧
    TEv.settle ∈ cancelTrace nh nd s r := by
  have hget := cancelTrace_get nh nd s r hs
  have hmem := cancelTrace_eq nh nd s r hs
  refine ⟨?_, ?_, ?_, ?_, ?_, ?_, ?_, ?_⟩
  · intro p i hp q hq
    have h1 : p < nh := by
      rcases hget p _ hp with ⟨h1, _⟩ | ⟨_, h2⟩ | ⟨_, h2⟩ | ⟨_, _, h2⟩ | ⟨_, h2⟩
      · exact h1
      · exact absurd h2 (by simp)
      · exact absurd h2 (by simp)
      · exact absurd h2 (by simp)
      · exact absurd h2 (by simp)
    have h3 : q = nh := by
      rcases hget q _ hq with ⟨_, h2⟩ | ⟨h3, _⟩ | ⟨_, h2⟩ | ⟨_, _, h2⟩ | ⟨_, h2⟩
      · exact absurd h2 (by simp)
      · exact h3
      · exact absurd h2 (by simp)
      · exact absurd h2 (by simp)
      · exact absurd h2 (by simp)
    omega
  · intro p hp q j hq
    have h1 : p = nh := by
      rcases hget p _ hp with ⟨_, h2⟩ | ⟨h1, _⟩ | ⟨_, h2⟩ | ⟨_, _, h2⟩ | ⟨_, h2⟩
      · exact absurd h2 (by simp)
      · exact h1
      · exact absurd h2 (by simp)
      · exact absurd h2 (by simp)
      · exact absurd h2 (by simp)
    have h3 : nh + 2 ≤ q := by
      rcases hget q _ hq with ⟨_, h2⟩ | ⟨_, h2⟩ | ⟨_, h2⟩ | ⟨h3, _, _⟩ | ⟨_, h2⟩
      · exact absurd h2 (by simp)
      · exact absurd h2 (by simp)
      · exact absurd h2 (by simp)
      · exact h3
      · exact absurd h2 (by simp)
    omega
  · intro q j hq m hm
    have h1 : q < nh + 2 + nd := by
      rcases hget q _ hq with ⟨_, h2⟩ | ⟨_, h2⟩ | ⟨_, h2⟩ | ⟨_, h1b, _⟩ | ⟨_, h2⟩
      · exact absurd h2 (by simp)
      · exact absurd h2 (by simp)
      · exact absurd h2 (by simp)
      · exact h1b
      · exact absurd h2 (by simp)
    have h3 : m = nh + 2 + nd := by
      rcases hget m _ hm with ⟨_, h2⟩ | ⟨_, h2⟩ | ⟨_, h2⟩ | ⟨_, _, h2⟩ | ⟨h3, _⟩
      · exact absurd h2 (by simp)
      · exact absurd h2 (by simp)
      · exact absurd h2 (by simp)
      · exact absurd h2 (by simp)
      · exact h3
    omega
  · intro p q i j hp hq hij
    have h1 : nh + 2 ≤ p ∧ p < nh + 2 + nd ∧ i = p - (nh + 2) := by
      rcases hget p _ hp with ⟨_, h2⟩ | ⟨_, h2⟩ | ⟨_, h2⟩ | ⟨h1a, h1b, h1c⟩ | ⟨_, h2⟩
      · exact absurd h2 (by simp)
      · exact absurd h2 (by simp)
      · exact absurd h2 (by simp)
      · refine ⟨h1a, h1b, ?_⟩
        injection h1c
      · exact absurd h2 (by simp)
    have h3 : nh + 2 ≤ q ∧ q < nh + 2 + nd ∧ j = q - (nh + 2) := by
      rcases hget q _ hq with ⟨_, h2⟩ | ⟨_, h2⟩ | ⟨_, h2⟩ | ⟨h3a, h3b, h3c⟩ | ⟨_, h2⟩
      · exact absurd h2 (by simp)
      · exact absurd h2 (by simp)
      · exact absurd h2 (by simp)
      · refine ⟨h3a, h3b, ?_⟩
        injection h3c
      · exact absurd h2 (by simp)
    omega
  · intro i hi
    rw [hmem]
    simp [hi]
  · rw [hmem]
    simp
  · intro j hj
    rw [hmem]
    simp [hj]
  · rw [hmem]
    simp

/-- Concrete instance of claim C4: with one hook and two handlers, the
flip event and both handler events occur in the trace of cancelling a
born task. -/
theorem cancel_order_hooks_flip_handlers_reject_witness :
    TEv.statusFlip .canceled ∈ cancelTrace 1 2 (bornState Nat) .scopeClosed ∧
    TEv.runHandler 1 ∈ cancelTrace 1 2 (bornState Nat) .scopeClosed :=
  ⟨(cancel_order_hooks_flip_handlers_reject Nat 1 2 (bornState Nat)
      .scopeClosed rfl).2.2.2.2.2.1,
    (cancel_order_hooks_flip_handlers_reject Nat 1 2 (bornState Nat)
      .scopeClosed rfl).2.2.2.2.2.2.1 1 (by decide)⟩

/-! ### Retry lemmas -/

/-- Attempts recorded after a leading attempt event. -/
theorem attemptsOf_cons_attempt (i : Nat) (l : List REv) :
    attemptsOf (REv.attempt i :: l) = i :: attemptsOf l := by
  simp [attemptsOf]

/-- Attempts are unaffected by a leading wait event. -/
theorem attemptsOf_cons_wait (d : Nat) (l : List REv) :
    attemptsOf (REv.wait d :: l) = attemptsOf l := by
  simp [attemptsOf]

/-- Waits recorded after a leading attempt event. -/
theorem waitsOf_cons_attempt (i : Nat) (l : List REv) :
    waitsOf (REv.attempt i :: l) = waitsOf l := by
  simp [waitsOf]

/-- Waits recorded after a leading wait event. -/
theorem waitsOf_cons_wait (d : Nat) (l : List REv) :
    waitsOf (REv.wait d :: l) = d :: waitsOf l := by
  simp [waitsOf]

/-- The retry loop performs at most one attempt more than the retries it
still has left. -/
theorem retryGo_attempts_le (f : Nat → Except ε ν) (b : Backoff) (d : Nat)
    (a : Option Nat) (r : ε) (rem : Nat) :
    ∀ i t, (attemptsOf (retryGo f b d a r rem i t).1).length ≤ rem + 1 := by
  induction rem with
  | zero =>
    intro i t
    rw [retryGo]
    cases hab : abortedAt a t
    · cases hf : f i <;> simp [hab, hf, attemptsOf]
    · simp [hab, attemptsOf]
  | succ rem ih =>
    intro i t
    rw [retryGo]
    cases hab : abortedAt a t
    · cases hf : f i
      · cases hab2 : abortedAt a (t + 1)
        · simpa [hab, hf, hab2, attemptsOf_cons_attempt, attemptsOf_cons_wait]
            using ih (i + 1) (t + 2)
        · simp [hab, hf, hab2, attemptsOf]
      · simp [hab, hf, attemptsOf]
    · simp [hab, attemptsOf]

/-- The wait before retry number `k + 1` performed by the retry loop
started at attempt index `i` has the backoff duration for index `i + k`. -/
theorem retryGo_wait_durations (f : Nat → Except ε ν) (b : Backoff) (d : Nat)
    (a : Option Nat) (r : ε) (rem : Nat) :
    ∀ i t k w, (waitsOf (retryGo f b d a r rem i t).1)[k]? = some w →
      w = retryDelay b d (i + k) := by
  induction rem with
  | zero =>
    intro i t k w h
    rw [retryGo] at h
    cases hab : abortedAt a t
    · cases hf : f i <;> simp [hab, hf, waitsOf] at h
    · simp [hab, waitsOf] at h
  | succ rem ih =>
    intro i t k w h
    rw [retryGo] at h
    cases hab : abortedAt a t
    · cases hf : f i
      · cases hab2 : abortedAt a (t + 1)
        · simp only [hab, hf, hab2, Bool.false_eq_true, if_false,
            waitsOf_cons_attempt, waitsOf_cons_wait] at h
          cases k with
          | zero =>
            simp only [List.getElem?_cons_zero] at h
            have hw : w = retryDelay b d i := (Option.some_injective _ h).symm
            simp [hw]
          | succ k =>
            have := ih (i + 1) (t + 2) k w (by simpa using h)
            rw [this]
            congr 1
            omega
        · simp [hab, hf, hab2, waitsOf] at h
      · simp [hab, hf, waitsOf] at h
    · simp [hab, waitsOf] at h

/-- Every attempt the retry loop performs happens at a checkpoint where
the signal had not yet been observed aborted. -/
theorem retryGo_attempt_not_aborted (f : Nat → Except ε ν) (b : Backoff)
    (d : Nat) (a : Option Nat) (r : ε) (rem : Nat) :
    ∀ i t j, REv.attempt j ∈ (retryGo f b d a r rem i t).1 →
      i ≤ j ∧ abortedAt a (t + 2 * (j - i)) = false := by
  induction rem with
  | zero =>
    intro i t j hj
    rw [retryGo] at hj
    cases hab : abortedAt a t
    · cases hf : f i <;> simp [hab, hf] at hj <;>
        exact ⟨by omega, by simpa [hj] using hab⟩
    · simp [hab] at hj
  | succ rem ih =>
    intro i t j hj
    rw [retryGo] at hj
    cases hab : abortedAt a t
    · cases hf : f i
      · cases hab2 : abortedAt a (t + 1)
        · simp only [hab, hf, hab2, Bool.false_eq_true, if_false,
            List.mem_cons] at hj
          rcases hj with hj | hj | hj
          · have hji : j = i := by
              injection hj
            exact ⟨by omega, by simpa [hji] using hab⟩
          · exact absurd hj (by simp)
          · have := ih (i + 1) (t + 2) j hj
            refine ⟨by omega, ?_⟩
            have harg : t + 2 + 2 * (j - (i + 1)) = t + 2 * (j - i) := by
              omega
            rw [harg] at this
            exact this.2
        · simp [hab, hf, hab2] at hj
          exact ⟨by omega, by simpa [hj] using hab⟩
      · simp [hab, hf] at hj
        exact ⟨by omega, by simpa [hj] using hab⟩
    · simp [hab] at hj

/-- Every wait the retry loop performs happens at a checkpoint where the
signal had not yet been observed aborted. -/
theorem retryGo_wait_not_aborted (f : Nat → Except ε ν) (b : Backoff)
    (d : Nat) (a : Option Nat) (r : ε) (rem : Nat) :
    ∀ i t k, k < (waitsOf (retryGo f b d a r rem i t).1).length →
      abortedAt a (t + 2 * k + 1) = false := by
  induction rem with
  | zero =>
    intro i t k hk
    rw [retryGo] at hk
    cases hab : abortedAt a t
    · cases hf : f i <;> simp [hab, hf, waitsOf] at hk
    · simp [hab, waitsOf] at hk
  | succ rem ih =>
    intro i t k hk
    rw [retryGo] at hk
    cases hab : abortedAt a t
    · cases hf : f i
      · cases hab2 : abortedAt a (t + 1)
        · simp only [hab, hf, hab2, Bool.false_eq_true, if_false,
            waitsOf_cons_attempt, waitsOf_cons_wait, List.length_cons] at hk
          cases k with
          | zero => simpa using hab2
          | succ k =>
            have := ih (i + 1) (t + 2) k (by omega)
            have harg : t + 2 + 2 * k + 1 = t + 2 * (k + 1) + 1 := by
              omega
            rw [harg] at this
            exact this
        · simp [hab, hf, hab2, waitsOf] at hk
      · simp [hab, hf, waitsOf] at hk
    · simp [hab, waitsOf] at hk

/-- A loop entered at an aborted checkpoint throws the signal reason
without attempting anything. -/
theorem retryGo_aborted_entry (f : Nat → Except ε ν) (b : Backoff) (d : Nat)
    (a : Option Nat) (r : ε) (rem i t : Nat) (h : abortedAt a t = true) :
    retryGo f b d a r rem i t = ([], .error r) := by
  rw [retryGo]
  simp [h]

/-- A wait entered at an aborted checkpoint throws the signal reason: the
attempt that failed is the last event and no wait happens. -/
theorem retryGo_aborted_before_wait (f : Nat → Except ε ν) (b : Backoff)
    (d : Nat) (a : Option Nat) (r : ε) (rem i t : Nat) (e : ε)
    (h : abortedAt a t = false) (hf : f i = .error e)
    (h2 : abortedAt a (t + 1) = true) :
    retryGo f b d a r (rem + 1) i t = ([REv.attempt i], .error r) := by
  rw [retryGo]
  simp [h, hf, h2]

/-- With no abort and every attempt failing, the loop throws the error of
its final attempt. -/
theorem retryGo_exhausted (f : Nat → Except ε ν) (b : Backoff) (d : Nat)
    (r : ε) (errf : Nat → ε) (hf : ∀ j, f j = .error (errf j)) (rem : Nat) :
    ∀ i t, (retryGo f b d none r rem i t).2 = .error (errf (i + rem)) := by
  induction rem with
  | zero =>
    intro i t
    rw [retryGo]
    simp [abortedAt, hf i]
  | succ rem ih =>
    intro i t
    rw [retryGo]
    simp only [abortedAt, Bool.false_eq_true, if_false, hf i]
    have := ih (i + 1) (t + 2)
    have harg : i + 1 + rem = i + (rem + 1) := by
      omega
    rw [harg] at this
    exact this

/-! ### Claim C6 -/

/-- Claim C6: for every `retry(fn, { retries, backoff, initialDelayMs },
signal)` run, `fn` is attempted at most `1 + retries` times; the wait
before retry `k + 1` is `initialDelayMs` for fixed backoff and
`initialDelayMs * 2 ^ k` for exponential backoff; every attempt and every
wait happens only at a checkpoint where the signal was not observed
aborted, and entering the loop (or a wait) at an aborted checkpoint
throws `signal.reason` instead; and with no abort and every attempt
failing, the error thrown is the one of the final attempt. -/
theorem retry_attempts_backoff_abort_last_error (ε ν : Type)
    (f : Nat → Except ε ν) (retries : Nat) (b : Backoff) (d : Nat)
    (a : Option Nat) (r : ε) :
    (attemptsOf (retryRun f retries b d a r).1).length ≤ retries + 1 ∧
    (∀ (k w : Nat), (waitsOf (retryRun f retries b d a r).1)[k]? = some w →
      w = retryDelay b d k) ∧
    (∀ j, REv.attempt j ∈ (retryRun f retries b d a r).1 →
      abortedAt a (2 * j) = false) ∧
    (∀ k, k < (waitsOf (retryRun f retries b d a r).1).length →
      abortedAt a (2 * k + 1) = false) ∧
    (∀ rem i t, abortedAt a t = true →
      retryGo f b d a r rem i t = ([], .error r)) ∧
    (∀ rem i t e, abortedAt a t = false → f i = .error e →
      abortedAt a (t + 1) = true →
      retryGo f b d a r (rem + 1) i t = ([REv.attempt i], .error r)) ∧
    (∀ errf : Nat → ε, a = none → (∀ j, f j = .error (errf j)) →
      (retryRun f retries b d a r).2 = .error (errf retries)) := by
  refine ⟨retryGo_attempts_le f b d a r retries 0 0, ?_, ?_, ?_,
    fun rem i t h => retryGo_aborted_entry f b d a r rem i t h,
    fun rem i t e h hf h2 => retryGo_aborted_before_wait f b d a r rem i t e h hf h2,
    ?_⟩
  · intro k w h
    have := retryGo_wait_durations f b d a r retries 0 0 k w h
    simpa using this
  · intro j hj
    have := retryGo_attempt_not_aborted f b d a r retries 0 0 j hj
    simpa using this.2
  · intro k hk
    have := retryGo_wait_not_aborted f b d a r retries 0 0 k hk
    simpa using this
  · intro errf ha hf
    subst ha
    have := retryGo_exhausted f b d r errf hf retries 0 0
    simpa using this

/-- Concrete instance of claim C6: two retries of an always-failing
function perform three attempts and throw the final error. -/
theorem retry_attempts_backoff_abort_last_error_witness :
    (attemptsOf (retryRun (fun j => (Except.error j : Except Nat Nat))
        2 .exponential 5 none 9).1).length ≤ 3 ∧
    (retryRun (fun j => (Except.error j : Except Nat Nat))
        2 .exponential 5 none 9).2 = .error 2 :=
  ⟨(retry_attempts_backoff_abort_last_error Nat Nat
      (fun j => Except.error j) 2 .exponential 5 none 9).1,
    (retry_attempts_backoff_abort_last_error Nat Nat
      (fun j => Except.error j) 2 .exponential 5 none 9).2.2.2.2.2.2
      (fun j => j) rfl (fun _ => rfl)⟩

/-! ### Earliest-rejection scan lemmas -/

/-- Scanning one more schedule either keeps the accumulator or adopts a
rejection from that schedule. -/
theorem rejStep_origin (acc : Option (Nat × α)) (s : Sched α) (t : Nat) (e : α)
    (h : rejStep acc s = some (t, e)) :
    acc = some (t, e) ∨ s = some (t, Except.error e) := by
  rcases s with _ | ⟨ts, o⟩
  · exact Or.inl h
  · rcases o with es | v
    · rcases acc with _ | ⟨ta, ea⟩
      · right
        simp only [rejStep] at h
        obtain ⟨h1, h2⟩ := Prod.mk.injEq .. ▸ (Option.some_injective _ h)
        rw [h1, h2]
      · simp only [rejStep] at h
        by_cases hlt : ts < ta
        · rw [if_pos hlt] at h
          obtain ⟨h1, h2⟩ := Prod.mk.injEq .. ▸ (Option.some_injective _ h)
          right
          rw [h1, h2]
        · rw [if_neg hlt] at h
          exact Or.inl h
    · exact Or.inl h

/-- Scanning one more schedule can only lower the accumulated instant. -/
theorem rejStep_acc_bound (acc : Option (Nat × α)) (s : Sched α)
    (ta : Nat) (ea : α) (h : acc = some (ta, ea)) :
    ∃ tb eb, rejStep acc s = some (tb, eb) ∧ tb ≤ ta := by
  subst h
  rcases s with _ | ⟨ts, o⟩
  · exact ⟨ta, ea, rfl, le_refl ta⟩
  · rcases o with es | v
    · simp only [rejStep]
      by_cases hlt : ts < ta
      · exact ⟨ts, es, by rw [if_pos hlt], by omega⟩
      · exact ⟨ta, ea, by rw [if_neg hlt], le_refl ta⟩
    · exact ⟨ta, ea, rfl, le_refl ta⟩

/-- After scanning a schedule that rejects at `ts`, the accumulator is a
rejection at an instant at most `ts`. -/
theorem rejStep_err_bound (acc : Option (Nat × α)) (ts : Nat) (es : α) :
    ∃ tb eb, rejStep acc (some (ts, Except.error es)) = some (tb, eb) ∧ tb ≤ ts := by
  rcases acc with _ | ⟨ta, ea⟩
  · exact ⟨ts, es, rfl, le_refl ts⟩
  · simp only [rejStep]
    by_cases hlt : ts < ta
    · exact ⟨ts, es, by rw [if_pos hlt], le_refl ts⟩
    · exact ⟨ta, ea, by rw [if_neg hlt], by omega⟩

/-- A rejection scan started from a present accumulator stays present. -/
theorem rejFold_some (tasks : List (Sched α)) :
    ∀ p : Nat × α, ∃ q, tasks.foldl rejStep (some p) = some q := by
  induction tasks with
  | nil => exact fun p => ⟨p, rfl⟩
  | cons s tasks ih =>
    intro p
    obtain ⟨tb, eb, hstep, _⟩ := rejStep_acc_bound (some p) s p.1 p.2 (by simp)
    simp only [List.foldl_cons, hstep]
    exact ih (tb, eb)

/-- When the rejection scan comes back empty, no schedule rejects. -/
theorem rejFold_none (tasks : List (Sched α))
    (h : tasks.foldl rejStep none = none) :
    ∀ s ∈ tasks, ∀ (t : Nat) (e : α), s ≠ some (t, Except.error e) := by
  induction tasks with
  | nil => simp
  | cons s tasks ih =>
    intro x hx t e
    rcases s with _ | ⟨ts, o⟩
    · simp only [List.foldl_cons, rejStep] at h
      rcases List.mem_cons.mp hx with hx | hx
      · rw [hx]
        simp
      · exact ih h x hx t e
    · rcases o with es | v
      · exfalso
        obtain ⟨tb, eb, hstep, _⟩ := rejStep_err_bound (none : Option (Nat × α)) ts es
        rw [List.foldl_cons, hstep] at h
        obtain ⟨q, hq⟩ := rejFold_some tasks (tb, eb)
        rw [hq] at h
        exact Option.noConfusion h
      · simp only [List.foldl_cons, rejStep] at h
        rcases List.mem_cons.mp hx with hx | hx
        · rw [hx]
          simp
        · exact ih h x hx t e

/-- The rejection scan yields a genuine rejection of one of the schedules,
and its instant is a lower bound on the accumulator and on every
rejection instant in the list. -/
theorem rejFold_spec (tasks : List (Sched α)) :
    ∀ (acc : Option (Nat × α)) (t : Nat) (e : α),
      tasks.foldl rejStep acc = some (t, e) →
      (acc = some (t, e) ∨ ∃ s ∈ tasks, s = some (t, Except.error e)) ∧
      (∀ ta ea, acc = some (ta, ea) → t ≤ ta) ∧
      (∀ s ∈ tasks, ∀ (ts : Nat) (es : α), s = some (ts, Except.error es) → t ≤ ts) := by
  induction tasks with
  | nil =>
    intro acc t e h
    refine ⟨Or.inl h, ?_, by simp⟩
    intro ta ea ha
    rw [ha] at h
    obtain ⟨h1, _⟩ := Prod.mk.injEq .. ▸ (Option.some_injective _ h)
    omega
  | cons s tasks ih =>
    intro acc t e h
    rw [List.foldl_cons] at h
    obtain ⟨horig, hbound, htail⟩ := ih (rejStep acc s) t e h
    have hstepbound : ∀ ta ea, acc = some (ta, ea) → t ≤ ta := by
      intro ta ea ha
      obtain ⟨tb, eb, hstep, hle⟩ := rejStep_acc_bound acc s ta ea ha
      have := hbound tb eb hstep
      omega
    have hheadbound : ∀ (ts : Nat) (es : α), s = some (ts, Except.error es) → t ≤ ts := by
      intro ts es hs
      subst hs
      obtain ⟨tb, eb, hstep, hle⟩ := rejStep_err_bound acc ts es
      have := hbound tb eb hstep
      omega
    refine ⟨?_, hstepbound, ?_⟩
    · rcases horig with horig | ⟨x, hx, hxe⟩
      · rcases rejStep_origin acc s t e horig with ha | hs
        · exact Or.inl ha
        · exact Or.inr ⟨s, List.mem_cons_self s tasks, hs⟩
      · exact Or.inr ⟨x, List.mem_cons_of_mem s hx, hxe⟩
    · intro x hx ts es hxe
      rcases List.mem_cons.mp hx with hx | hx
      · exact hheadbound ts es (hx ▸ hxe)
      · exact htail x hx ts es hxe

/-! ### Earliest-settlement scan lemmas -/

/-- Scanning one more schedule either keeps the accumulator or adopts the
settlement of that schedule. -/
theorem raceStep_origin (acc : Option (Nat × Except α α)) (s : Sched α)
    (t : Nat) (o : Except α α) (h : raceStep acc s = some (t, o)) :
    acc = some (t, o) ∨ s = some (t, o) := by
  rcases s with _ | ⟨ts, os⟩
  · exact Or.inl h
  · rcases acc with _ | ⟨ta, oa⟩
    · right
      simp only [raceStep] at h
      exact h
    · simp only [raceStep] at h
      by_cases hlt : ts < ta
      · rw [if_pos hlt] at h
        right
        exact h
      · rw [if_neg hlt] at h
        exact Or.inl h

/-- Scanning one more schedule can only lower the accumulated instant. -/
theorem raceStep_acc_bound (acc : Option (Nat × Except α α)) (s : Sched α)
    (ta : Nat) (oa : Except α α) (h : acc = some (ta, oa)) :
    ∃ tb ob, raceStep acc s = some (tb, ob) ∧ tb ≤ ta := by
  subst h
  rcases s with _ | ⟨ts, os⟩
  · exact ⟨ta, oa, rfl, le_refl ta⟩
  · simp only [raceStep]
    by_cases hlt : ts < ta
    · exact ⟨ts, os, by rw [if_pos hlt], by omega⟩
    · exact ⟨ta, oa, by rw [if_neg hlt], le_refl ta⟩

/-- After scanning a schedule that settles at `ts`, the accumulator is a
settlement at an instant at most `ts`. -/
theorem raceStep_settle_bound (acc : Option (Nat × Except α α)) (ts : Nat)
    (os : Except α α) :
    ∃ tb ob, raceStep acc (some (ts, os)) = some (tb, ob) ∧ tb ≤ ts := by
  rcases acc with _ | ⟨ta, oa⟩
  · exact ⟨ts, os, rfl, le_refl ts⟩
  · simp only [raceStep]
    by_cases hlt : ts < ta
    · exact ⟨ts, os, by rw [if_pos hlt], le_refl ts⟩
    · exact ⟨ta, oa, by rw [if_neg hlt], by omega⟩

/-- A settlement scan started from a present accumulator stays present. -/
theorem raceFold_some (tasks : List (Sched α)) :
    ∀ p : Nat × Except α α, ∃ q, tasks.foldl raceStep (some p) = some q := by
  induction tasks with
  | nil => exact fun p => ⟨p, rfl⟩
  | cons s tasks ih =>
    intro p
    obtain ⟨tb, ob, hstep, _⟩ := raceStep_acc_bound (some p) s p.1 p.2 (by simp)
    simp only [List.foldl_cons, hstep]
    exact ih (tb, ob)

/-- When the settlement scan comes back empty, no schedule settles. -/
theorem raceFold_none (tasks : List (Sched α))
    (h : tasks.foldl raceStep none = none) :
    ∀ s ∈ tasks, s = none := by
  induction tasks with
  | nil => simp
  | cons s tasks ih =>
    intro x hx
    rcases s with _ | ⟨ts, os⟩
    · simp only [List.foldl_cons, raceStep] at h
      rcases List.mem_cons.mp hx with hx | hx
      · exact hx
      · exact ih h x hx
    · exfalso
      obtain ⟨tb, ob, hstep, _⟩ :=
        raceStep_settle_bound (none : Option (Nat × Except α α)) ts os
      rw [List.foldl_cons, hstep] at h
      obtain ⟨q, hq⟩ := raceFold_some tasks (tb, ob)
      rw [hq] at h
      exact Option.noConfusion h

/-- The settlement scan yields a genuine settlement of one of the
schedules, and its instant is a lower bound on the accumulator and on
every settlement instant in the list. -/
theorem raceFold_spec (tasks : List (Sched α)) :
    ∀ (acc : Option (Nat × Except α α)) (t : Nat) (o : Except α α),
      tasks.foldl raceStep acc = some (t, o) →
      (acc = some (t, o) ∨ some (t, o) ∈ tasks) ∧
      (∀ ta oa, acc = some (ta, oa) → t ≤ ta) ∧
      (∀ s ∈ tasks, ∀ (ts : Nat) (os : Except α α), s = some (ts, os) → t ≤ ts) := by
  induction tasks with
  | nil =>
    intro acc t o h
    refine ⟨Or.inl h, ?_, by simp⟩
    intro ta oa ha
    rw [ha] at h
    obtain ⟨h1, _⟩ := Prod.mk.injEq .. ▸ (Option.some_injective _ h)
    omega
  | cons s tasks ih =>
    intro acc t o h
    rw [List.foldl_cons] at h
    obtain ⟨horig, hbound, htail⟩ := ih (raceStep acc s) t o h
    have hstepbound : ∀ ta oa, acc = some (ta, oa) → t ≤ ta := by
      intro ta oa ha
      obtain ⟨tb, ob, hstep, hle⟩ := raceStep_acc_bound acc s ta oa ha
      have := hbound tb ob hstep
      omega
    have hheadbound : ∀ (ts : Nat) (os : Except α α), s = some (ts, os) → t ≤ ts := by
      intro ts os hs
      subst hs
      obtain ⟨tb, ob, hstep, hle⟩ := raceStep_settle_bound acc ts os
      have := hbound tb ob hstep
      omega
    refine ⟨?_, hstepbound, ?_⟩
    · rcases horig with horig | hmem
      · rcases raceStep_origin acc s t o horig with ha | hs
        · exact Or.inl ha
        · exact Or.inr (hs ▸ List.mem_cons_self s tasks)
      · exact Or.inr (List.mem_cons_of_mem s hmem)
    · intro x hx ts os hxe
      rcases List.mem_cons.mp hx with hx | hx
      · exact hheadbound ts os (hx ▸ hxe)
      · exact htail x hx ts os hxe

/-- Reading the image of a position through a mapped list. -/
theorem map_getElem_some (f : β → γ) (l : List β) (j : Nat) (x : β)
    (h : l[j]? = some x) : (l.map f)[j]? = some (f x) := by
  rw [List.getElem?_map, h]
  rfl

/-- The settlement-instant maximum dominates its seed and every
settlement instant in the list. -/
theorem maxFold_bound (tasks : List (Sched α)) :
    ∀ m : Nat, m ≤ tasks.foldl maxStep m ∧
      ∀ s ∈ tasks, ∀ (ts : Nat) (os : Except α α), s = some (ts, os) →
        ts ≤ tasks.foldl maxStep m := by
  induction tasks with
  | nil => exact fun m => ⟨le_refl m, by simp⟩
  | cons s tasks ih =>
    intro m
    rw [List.foldl_cons]
    have hstep : m ≤ maxStep m s := by
      rcases s with _ | ⟨ts, os⟩
      · exact le_refl m
      · simp [maxStep]
    obtain ⟨hseed, helems⟩ := ih (maxStep m s)
    refine ⟨le_trans hstep hseed, ?_⟩
    intro x hx ts os hxe
    rcases List.mem_cons.mp hx with hx | hx
    · subst hx
      subst hxe
      have h1 : ts ≤ maxStep m (some (ts, os)) := by
        simp [maxStep]
      exact le_trans h1 hseed
    · exact helems x hx ts os hxe

/-- Membership via a position. -/
theorem mem_of_getElem_some (l : List β) (j : Nat) (x : β)
    (h : l[j]? = some x) : x ∈ l :=
  List.getElem?_mem h

/-! ### Claim C2 -/

/-- Claim C2, corrected: `race` settles with the settlement of the first
task to settle (a genuine settlement of one of the tasks, no later than
any other settlement), and the scope is closed before `race` returns so
every still-pending losing task transitions to `canceled` — with cancel
reason `scope-closed` when the winning settlement fulfilled, but with the
winning rejection reason itself when it rejected, because the rejection
branch aborts the controller with that error instead of the scope-closed
marker.  Tasks that had already settled keep their natural terminal
status. -/
theorem race_first_settle_wins_losers_canceled (α : Type)
    (tasks : List (Sched α)) (t : Nat) (o : Except α α)
    (h : promiseRace tasks = some (t, o)) :
    (raceRun tasks).settled = some (t, o) ∧
    some (t, o) ∈ tasks ∧
    (∀ s ∈ tasks, ∀ (ts : Nat) (os : Except α α), s = some (ts, os) → t ≤ ts) ∧
    (∀ j : Nat, tasks[j]? = some none →
      (raceRun tasks).statuses[j]?
        = some (.canceled (raceAbortReason o))) ∧
    (∀ (j ts : Nat) (os : Except α α), tasks[j]? = some (some (ts, os)) → t < ts →
      (raceRun tasks).statuses[j]?
        = some (.canceled (raceAbortReason o))) ∧
    (∀ (j ts : Nat) (os : Except α α), tasks[j]? = some (some (ts, os)) → ts ≤ t →
      (raceRun tasks).statuses[j]? = some (naturalStatus os)) ∧
    (∀ v, o = .ok v → raceAbortReason o = .scopeClosed) ∧
    (∀ e, o = .error e → raceAbortReason o = .user e) := by
  obtain ⟨horig, _, hmin⟩ := raceFold_spec tasks none t o h
  have hmem : some (t, o) ∈ tasks := by
    rcases horig with horig | hmem
    · exact absurd horig (by simp)
    · exact hmem
  have hstatuses : (raceRun tasks).statuses
      = tasks.map (finalStatusAt (some (t, raceAbortReason o))) := by
    simp [raceRun, h]
  refine ⟨by simp [raceRun, h], hmem, hmin, ?_, ?_, ?_, ?_, ?_⟩
  · intro j hj
    rw [hstatuses]
    exact map_getElem_some _ tasks j none hj
  · intro j ts os hj hts
    rw [hstatuses]
    have := map_getElem_some (finalStatusAt (some (t, raceAbortReason o)))
      tasks j (some (ts, os)) hj
    rw [this]
    have hnot : ¬ ts ≤ t := by omega
    simp [finalStatusAt, hnot]
  · intro j ts os hj hts
    rw [hstatuses]
    have := map_getElem_some (finalStatusAt (some (t, raceAbortReason o)))
      tasks j (some (ts, os)) hj
    rw [this]
    simp [finalStatusAt, hts]
  · intro v hv
    rw [hv]
    rfl
  · intro e he
    rw [he]
    rfl

/-- Counterexample to claim C2 as stated: with a first task rejecting at
instant 0 with error 5 and a second task that never settles on its own,
`race` rejects with that error, but the pending loser is canceled with
the rejection reason itself, not with the scope-closed reason the claim
requires. -/
theorem race_losers_scope_closed_counterexample :
    (raceRun [some (0, Except.error 5), (none : Sched Nat)]).settled
        = some (0, Except.error 5) ∧
    (raceRun [some (0, Except.error 5), (none : Sched Nat)]).statuses
        = [FinalStatus.failed 5, FinalStatus.canceled (Reason.user 5)] ∧
    FinalStatus.canceled (Reason.user 5)
        ≠ (FinalStatus.canceled Reason.scopeClosed : FinalStatus Nat) :=
  ⟨rfl, rfl, by decide⟩

/-- Concrete instance of the corrected claim C2: a fulfilled winner at
instant 1 cancels the pending loser with the scope-closed reason. -/
theorem race_first_settle_wins_losers_canceled_witness :
    (raceRun [some (1, Except.ok 42), (none : Sched Nat)]).settled
        = some (1, Except.ok 42) ∧
    (raceRun [some (1, Except.ok 42), (none : Sched Nat)]).statuses[1]?
        = some (FinalStatus.canceled Reason.scopeClosed) :=
  ⟨(race_first_settle_wins_losers_canceled Nat
      [some (1, Except.ok 42), none] 1 (Except.ok 42) rfl).1,
    (race_first_settle_wins_losers_canceled Nat
      [some (1, Except.ok 42), none] 1 (Except.ok 42) rfl).2.2.2.1 1 rfl⟩

/-! ### Claim C1 -/

/-- Claim C1, corrected: `sync` awaits the tasks before the callback.  If
any scope-bound task rejects, `sync` rejects with the earliest task
rejection (a genuine rejection of one of the tasks) and the scope is then
closed, cancelling every still-pending scope-bound task with the
scope-closed reason while already-settled tasks keep their natural
status.  A callback rejection on its own does not close the scope: when
no task rejects and every task completes, `sync` settles with the
callback's outcome — at an instant no earlier than any task settlement,
so a fulfilment is delivered only after every scope-bound task has
completed — and when some task never settles (and none rejects), `sync`
never settles at all, whatever the callback did. -/
theorem sync_first_task_rejection_wins_else_waits_all (α : Type)
    (tasks : List (Sched α)) (cb : Sched α) :
    (∀ (t : Nat) (e : α), firstRejection tasks = some (t, e) →
      (syncRun tasks cb).settled = some (t, Except.error e) ∧
      (∃ s ∈ tasks, s = some (t, Except.error e)) ∧
      (∀ s ∈ tasks, ∀ (ts : Nat) (es : α),
        s = some (ts, Except.error es) → t ≤ ts) ∧
      (∀ j : Nat, tasks[j]? = some none →
        (syncRun tasks cb).statuses[j]?
          = some (.canceled .scopeClosed)) ∧
      (∀ (j ts : Nat) (os : Except α α), tasks[j]? = some (some (ts, os)) →
        t < ts →
        (syncRun tasks cb).statuses[j]?
          = some (.canceled .scopeClosed)) ∧
      (∀ (j ts : Nat) (os : Except α α), tasks[j]? = some (some (ts, os)) →
        ts ≤ t →
        (syncRun tasks cb).statuses[j]? = some (naturalStatus os))) ∧
    (∀ (tc : Nat) (out : Except α α), firstRejection tasks = none →
      allSettled tasks = true → cb = some (tc, out) →
      (syncRun tasks cb).settled
        = some (max (maxSettleTime tasks) tc, out) ∧
      (∀ (j ts : Nat) (os : Except α α), tasks[j]? = some (some (ts, os)) →
        ts ≤ max (maxSettleTime tasks) tc ∧
        (syncRun tasks cb).statuses[j]? = some (naturalStatus os) ∧
        ∃ v, os = Except.ok v)) ∧
    (firstRejection tasks = none → allSettled tasks = false →
      (syncRun tasks cb).settled = none) := by
  refine ⟨?_, ?_, ?_⟩
  · intro t e h
    obtain ⟨horig, _, hmin⟩ := rejFold_spec tasks none t e h
    have hex : ∃ s ∈ tasks, s = some (t, Except.error e) := by
      rcases horig with horig | hex
      · exact absurd horig (by simp)
      · exact hex
    have hstatuses : (syncRun tasks cb).statuses
        = tasks.map (finalStatusAt (some (t, Reason.scopeClosed))) := by
      simp [syncRun, h]
    refine ⟨by simp [syncRun, h], hex, hmin, ?_, ?_, ?_⟩
    · intro j hj
      rw [hstatuses]
      exact map_getElem_some _ tasks j none hj
    · intro j ts os hj hts
      rw [hstatuses]
      rw [map_getElem_some (finalStatusAt (some (t, Reason.scopeClosed)))
        tasks j (some (ts, os)) hj]
      have hnot : ¬ ts ≤ t := by omega
      simp [finalStatusAt, hnot]
    · intro j ts os hj hts
      rw [hstatuses]
      rw [map_getElem_some (finalStatusAt (some (t, Reason.scopeClosed)))
        tasks j (some (ts, os)) hj]
      simp [finalStatusAt, hts]
  · intro tc out hr ha hcb
    subst hcb
    have hstatuses : (syncRun tasks (some (tc, out))).statuses
        = tasks.map
            (finalStatusAt (some (max (maxSettleTime tasks) tc,
              Reason.scopeClosed))) := by
      simp [syncRun, hr, ha]
    refine ⟨by simp [syncRun, hr, ha], ?_⟩
    intro j ts os hj
    have hmemj := mem_of_getElem_some tasks j (some (ts, os)) hj
    have hbound := (maxFold_bound tasks 0).2 (some (ts, os)) hmemj ts os rfl
    have hts : ts ≤ max (maxSettleTime tasks) tc := by
      have : ts ≤ maxSettleTime tasks := hbound
      omega
    refine ⟨hts, ?_, ?_⟩
    · rw [hstatuses]
      rw [map_getElem_some
        (finalStatusAt (some (max (maxSettleTime tasks) tc, Reason.scopeClosed)))
        tasks j (some (ts, os)) hj]
      simp [finalStatusAt, hts]
    · have hnoerr := rejFold_none tasks hr (some (ts, os)) hmemj
      rcases os with es | v
      · exact absurd rfl (hnoerr ts es)
      · exact ⟨v, rfl⟩
  · intro hr ha
    simp [syncRun, hr, ha]

/-- Counterexample to claim C1 as stated: the callback rejects with error
9 at instant 0 while the single task rejects with error 5 only at
instant 1.  The first failure is the callback rejection, yet `sync`
rejects with the later task error 5: the callback rejection neither wins
nor closes the scope. -/
theorem sync_first_failure_counterexample :
    (syncRun [some (1, Except.error 5)] (some (0, Except.error 9))).settled
        = some (1, Except.error 5) ∧
    some (1, (Except.error 5 : Except Nat Nat))
        ≠ some (0, (Except.error 9 : Except Nat Nat)) ∧
    (syncRun [some (1, Except.error 5)] (some (0, Except.error 9))).statuses
        = [FinalStatus.failed 5] :=
  ⟨rfl, by decide, rfl⟩

/-- Concrete instance of the corrected claim C1: a task rejecting at
instant 1 beats a pending sibling, which is canceled with the
scope-closed reason. -/
theorem sync_first_task_rejection_wins_witness :
    (syncRun [some (1, Except.error 5), (none : Sched Nat)]
        (some (0, Except.ok 3))).settled = some (1, Except.error 5) ∧
    (syncRun [some (1, Except.error 5), (none : Sched Nat)]
        (some (0, Except.ok 3))).statuses[1]?
        = some (FinalStatus.canceled Reason.scopeClosed) :=
  ⟨((sync_first_task_rejection_wins_else_waits_all Nat
      [some (1, Except.error 5), none] (some (0, Except.ok 3))).1
      1 5 rfl).1,
    ((sync_first_task_rejection_wins_else_waits_all Nat
      [some (1, Except.error 5), none] (some (0, Except.ok 3))).1
      1 5 rfl).2.2.2.1 1 rfl⟩

end Taskloom
